import Mathlib

/-!
Verification development for the `oai-reverse-proxy` repository.

The development shallowly embeds two source files:

* `src/key-management/key-pool.ts` (given as `src/unnamed/part_001`): the
  `Key` record type and the `KeyPool` class with its constructor and the
  methods `list`, `get`, `update`, `disable`, `anyAvailable`,
  `incrementPrompt` and `calculateRemainingQuota`.
* `src/proxy/kobold.ts` (given as `src/unnamed/part_000`): the
  `handleProxiedResponse` callback of the Kobold-to-OpenAI proxy, which
  decompresses the upstream body, reshapes the OpenAI completion JSON to the
  legacy Kobold shape, recompresses it and accounts usage.

JavaScript numbers are modelled as exact rationals extended with the special
values `NaN`/`Infinity` where the code can produce them; timestamps
(`Date.now()`) are natural numbers passed in explicitly; external library
calls (`zlib`, `JSON.parse`/`JSON.stringify`, `crypto` hashing) are modelled
algebraically, as noted at each definition.
-/

namespace OaiProxy

/-- One entry of `KeyPool.keys` — the `Key` type of `key-pool.ts`.
`softLimit`, `hardLimit`, `systemHardLimit` and `usage` are JS numbers,
modelled as rationals; `lastUsed`/`lastChecked` are epoch-millisecond
timestamps; `promptCount` is a counter. -/
structure Key where
  key : String
  isTrial : Bool
  isGpt4 : Bool
  isDisabled : Bool
  softLimit : ℚ
  hardLimit : ℚ
  systemHardLimit : ℚ
  usage : ℚ
  promptCount : Nat
  lastUsed : Nat
  lastChecked : Nat
  hash : String
deriving DecidableEq, Repr

instance exceptDecEq {ε α : Type} [DecidableEq ε] [DecidableEq α] :
    DecidableEq (Except ε α) := fun x y =>
  match x, y with
  | .error a, .error b =>
    if h : a = b then isTrue (by rw [h]) else isFalse (by simp [h])
  | .error _, .ok _ => isFalse (by simp)
  | .ok _, .error _ => isFalse (by simp)
  | .ok a, .ok b =>
    if h : a = b then isTrue (by rw [h]) else isFalse (by simp [h])

/-- The result of a JS floating-point expression: a finite number (kept
exact as a rational), `NaN`, `+Infinity` or `-Infinity`. -/
inductive JsNum where
  | num (q : ℚ)
  | nan
  | posInf
  | negInf
deriving DecidableEq, Repr

/-- JS division `a / b` on finite operands: division by zero yields `NaN`
when the numerator is zero and a signed infinity otherwise. -/
def jsDiv (a b : ℚ) : JsNum :=
  if b = 0 then
    if a = 0 then .nan else if 0 < a then .posInf else .negInf
  else .num (a / b)

/-- JS subtraction `1 - x` where `x` may be a special value:
`1 - NaN = NaN`, `1 - Infinity = -Infinity`, `1 - (-Infinity) = Infinity`. -/
def jsOneSub : JsNum → JsNum
  | .num q => .num (1 - q)
  | .nan => .nan
  | .posInf => .negInf
  | .negInf => .posInf

/-- `KeyPool.calculateRemainingQuota(gpt4Only = false)`:
filters to GPT-4 keys when requested, returns `0` for an empty filtered
set, and otherwise computes `1 - Σ min(usage, hardLimit) / Σ hardLimit`
with JS division semantics. -/
def calculateRemainingQuota (keys : List Key) (gpt4Only : Bool) : JsNum :=
  let ks := if gpt4Only then keys.filter (fun k => k.isGpt4) else keys
  if ks.length = 0 then .num 0
  else
    let totalUsage := ks.foldl (fun acc key => acc + min key.usage key.hardLimit) 0
    let totalLimit := ks.foldl (fun acc key => acc + key.hardLimit) 0
    jsOneSub (jsDiv totalUsage totalLimit)

/-- A freshly constructed key with secret `k`, as built in the `KeyPool`
constructor. `hashFn` stands for the external
`crypto.createHash("sha256").update(k).digest("hex").slice(0, 6)` call,
a pure function of the secret. -/
def newKey (hashFn : String → String) (k : String) : Key :=
  { key := k
    isGpt4 := false
    isTrial := false
    isDisabled := false
    softLimit := 0
    hardLimit := 0
    systemHardLimit := 0
    usage := 0
    lastUsed := 0
    lastChecked := 0
    promptCount := 0
    hash := hashFn k }

/-- `keyString.split(",")` — the JS single-character string split,
defined structurally on the character list: `"".split(",") = [""]` and
`",".split(",") = ["", ""]`. -/
def splitChars (sep : Char) : List Char → List (List Char)
  | [] => [[]]
  | c :: cs =>
    if c = sep then [] :: splitChars sep cs
    else
      match splitChars sep cs with
      | [] => [[c]]
      | w :: ws => (c :: w) :: ws

/-- JS `String.prototype.split` with a one-character separator. -/
def jsSplit (s : String) (sep : Char) : List String :=
  (splitChars sep s.data).map String.mk

/-- JS `String.prototype.trim`: strips leading and trailing whitespace. -/
def jsTrim (s : String) : String :=
  ⟨((s.data.dropWhile Char.isWhitespace).reverse.dropWhile
      Char.isWhitespace).reverse⟩

/-- The `KeyPool` constructor: reads `config.openaiKey` (possibly unset,
hence `Option String`), throws when it is missing or blank after trimming
(`!keyString?.trim()`), and otherwise builds one key per comma-separated
entry, trimming each entry. -/
def keyPoolInit (hashFn : String → String) (keyString : Option String) :
    Except String (List Key) :=
  match keyString with
  | none => .error "OPENAI_KEY environment variable is not set"
  | some s =>
    if jsTrim s = "" then
      .error "OPENAI_KEY environment variable is not set"
    else
      .ok (((jsSplit s ',').map jsTrim).map (newKey hashFn))

/-- Error message thrown by `KeyPool.get` when no key is available at all. -/
def noKeysMsg : String := "No keys available. Please add more keys."

/-- Error message thrown by `KeyPool.get` when a GPT-4 key is required but
none is available. -/
def noGpt4KeysMsg : String :=
  "No GPT-4 keys available. Please add more keys or use a non-GPT-4 model."

/-- `model.startsWith("gpt-4")`, defined structurally on character
lists. -/
def startsWithChars : List Char → List Char → Bool
  | _, [] => true
  | [], _ :: _ => false
  | c :: cs, p :: ps => c = p && startsWithChars cs ps

/-- JS `String.prototype.startsWith`. -/
def jsStartsWith (s pat : String) : Bool :=
  startsWithChars s.data pat.data

/-- The availability filter of `KeyPool.get`:
`!key.isDisabled && (!needsGpt4Key || key.isGpt4)`. -/
def availableFilter (needsGpt4Key : Bool) (key : Key) : Bool :=
  !key.isDisabled && (!needsGpt4Key || key.isGpt4)

/-- The pool's keys paired with their positions, starting at `n`.  The
position stands for the JS object identity of the record, which `get`
needs because it mutates the selected record in place. -/
def withIdx (n : Nat) : List Key → List (Nat × Key)
  | [] => []
  | k :: ks => (n, k) :: withIdx (n + 1) ks

/-- Stable insertion of an indexed key into a list sorted by ascending
`lastUsed`: the new element goes before the first strictly newer one and
after every older-or-equal one. -/
def insertByLastUsed (x : Nat × Key) : List (Nat × Key) → List (Nat × Key)
  | [] => [x]
  | y :: ys =>
    if x.2.lastUsed ≤ y.2.lastUsed then x :: y :: ys
    else y :: insertByLastUsed x ys

/-- `availableKeys.sort((a, b) => a.lastUsed - b.lastUsed)`: JS `sort` is
required to be stable, and a stable sort under the total preorder given by
`lastUsed` has a unique result, so stable insertion sort embeds it
faithfully. -/
def sortByLastUsed : List (Nat × Key) → List (Nat × Key)
  | [] => []
  | x :: xs => insertByLastUsed x (sortByLastUsed xs)

/-- Overwrite `lastUsed` of the pool record at position `i`
(`key.lastUsed = Date.now()` on the in-place record). -/
def stampLastUsed : List Key → Nat → Nat → List Key
  | [], _, _ => []
  | k :: ks, 0, now => { k with lastUsed := now } :: ks
  | k :: ks, i + 1, now => k :: stampLastUsed ks i now

/-- `const availableKeys = this.keys.filter((key) => !key.isDisabled &&
(!needsGpt4Key || key.isGpt4))` with `needsGpt4Key =
model.startsWith("gpt-4")`, keys paired with their pool positions. -/
def availableOf (keys : List Key) (model : String) : List (Nat × Key) :=
  (withIdx 0 keys).filter fun p => availableFilter (jsStartsWith model "gpt-4") p.2

/-- The value returned by `KeyPool.get` together with which pool record
was stamped and through which branch it was produced. -/
structure Selected where
  returned : Key
  index : Nat
  viaTrial : Bool
deriving DecidableEq, Repr

/-- `KeyPool.get(model)`: filters to non-disabled keys meeting the GPT-4
requirement (`model.startsWith("gpt-4")`), throws a branch-specific message
when none remain, prefers the first trial key, and otherwise takes the head
of the list stably sorted by `lastUsed`; in both branches it stamps the
selected pool record's `lastUsed` with `Date.now()` (`now`).  The returned
`Key` value carries the stamped timestamp, since the code mutates the
record before returning it (trial branch) or spreading it (LRU branch). -/
def KeyPool.get (keys : List Key) (model : String) (now : Nat) :
    Except String (Selected × List Key) :=
  match availableOf keys model with
  | [] => .error (if jsStartsWith model "gpt-4" then noGpt4KeysMsg else noKeysMsg)
  | a :: as =>
    match (a :: as).filter (fun p => p.2.isTrial) with
    | t :: _ =>
      .ok (⟨{ t.2 with lastUsed := now }, t.1, true⟩, stampLastUsed keys t.1 now)
    | [] =>
      match sortByLastUsed (a :: as) with
      | o :: _ =>
        .ok (⟨{ o.2 with lastUsed := now }, o.1, false⟩, stampLastUsed keys o.1 now)
      | [] => .error noKeysMsg  -- unreachable: sorting preserves nonemptiness

/-- The partial update accepted by `KeyPool.update` — `KeyUpdate` is
`Partial<Key>` minus `key`, `hash`, `isDisabled`, `lastUsed`,
`lastChecked` and `promptCount`; absent fields are `none`. -/
structure KeyUpdate where
  isTrial : Option Bool := none
  isGpt4 : Option Bool := none
  softLimit : Option ℚ := none
  hardLimit : Option ℚ := none
  systemHardLimit : Option ℚ := none
  usage : Option ℚ := none
deriving DecidableEq, Repr

/-- `Object.assign(keyFromPool, { ...update, lastChecked: Date.now() })`:
every field present in the update overwrites the record's field, and
`lastChecked` is stamped. -/
def applyUpdate (k : Key) (u : KeyUpdate) (now : Nat) : Key :=
  { k with
    isTrial := u.isTrial.getD k.isTrial
    isGpt4 := u.isGpt4.getD k.isGpt4
    softLimit := u.softLimit.getD k.softLimit
    hardLimit := u.hardLimit.getD k.hardLimit
    systemHardLimit := u.systemHardLimit.getD k.systemHardLimit
    usage := u.usage.getD k.usage
    lastChecked := now }

/-- The message of the JS `TypeError` raised by `Object.assign` when its
target is `undefined` — which is what `KeyPool.update` reaches when
`this.keys.find((k) => k.hash === keyHash)` finds nothing (the `!`
assertion has no runtime effect). -/
def assignTypeErrorMsg : String :=
  "TypeError: Cannot convert undefined or null to object"

/-- `KeyPool.update(keyHash, update)`: finds the first record with the
given hash and merges the update into it in place; with no matching record
the `Object.assign` call throws a `TypeError`. -/
def KeyPool.update (keys : List Key) (keyHash : String) (u : KeyUpdate) (now : Nat) :
    Except String (List Key) :=
  match keys with
  | [] => .error assignTypeErrorMsg
  | k :: ks =>
    if k.hash = keyHash then .ok (applyUpdate k u now :: ks)
    else (KeyPool.update ks keyHash u now).map (k :: ·)

/-- A frozen listing entry: the spread `{ ...key, key: undefined }` keeps
every field of the record but replaces the secret with `undefined`. -/
structure PublicKey where
  key : Option String
  isTrial : Bool
  isGpt4 : Bool
  isDisabled : Bool
  softLimit : ℚ
  hardLimit : ℚ
  systemHardLimit : ℚ
  usage : ℚ
  promptCount : Nat
  lastUsed : Nat
  lastChecked : Nat
  hash : String
deriving DecidableEq, Repr

/-- The public projection of one record, as produced for each element by
`KeyPool.list`. -/
def toPublic (k : Key) : PublicKey :=
  { key := none
    isTrial := k.isTrial
    isGpt4 := k.isGpt4
    isDisabled := k.isDisabled
    softLimit := k.softLimit
    hardLimit := k.hardLimit
    systemHardLimit := k.systemHardLimit
    usage := k.usage
    promptCount := k.promptCount
    lastUsed := k.lastUsed
    lastChecked := k.lastChecked
    hash := k.hash }

/-- `KeyPool.list()`: one frozen public copy per record, in pool order. -/
def KeyPool.list (keys : List Key) : List PublicKey :=
  keys.map toPublic

/-! ## Response translation stage (`handleProxiedResponse` in the Kobold proxy) -/

/-- A parsed JSON value (the image of `JSON.parse` on the subset of JSON
the proxy handles). -/
inductive Json where
  | null
  | bool (b : Bool)
  | num (q : ℚ)
  | str (s : String)
  | arr (elems : List Json)
  | obj (fields : List (String × Json))

/-- Field lookup in a JSON object literal (first binding wins, as for
`JSON.parse` output the keys are unique anyway). -/
def jsonLookup : List (String × Json) → String → Option Json
  | [], _ => none
  | (k, v) :: fs, key => if k = key then some v else jsonLookup fs key

/-- JS property access `v.k` where `v` may be `undefined` (`none`):
accessing a property of `undefined` or `null` throws a `TypeError`;
on any other non-object value it yields `undefined`. -/
def jsGetField : Option Json → String → Except String (Option Json)
  | none, _ => .error "TypeError: Cannot read properties of undefined"
  | some .null, _ => .error "TypeError: Cannot read properties of null"
  | some (.obj fields), k => .ok (jsonLookup fields k)
  | some _, _ => .ok none

/-- JS index access `v[i]` for the same cases as `jsGetField`. -/
def jsIndex : Option Json → Nat → Except String (Option Json)
  | none, _ => .error "TypeError: Cannot read properties of undefined"
  | some .null, _ => .error "TypeError: Cannot read properties of null"
  | some (.arr xs), i => .ok (xs.get? i)
  | some _, _ => .ok none

/-- Response body bytes.  The zlib codecs are external to the repository,
so compression is modelled algebraically: `gzipped b` (resp. `deflated b`)
is the gzip (resp. deflate) compression of the bytes `b`, and `raw j` is a
plain `JSON.stringify` serialization of the value `j`. -/
inductive Body where
  | raw (j : Json)
  | gzipped (b : Body)
  | deflated (b : Body)

/-- `zlib.gunzip`: inverts gzip compression and fails on anything that is
not gzip output. -/
def gunzip : Body → Except String Body
  | .gzipped b => .ok b
  | _ => .error "zlib error: incorrect header check"

/-- `zlib.inflate`: inverts deflate compression and fails on anything that
is not deflate output. -/
def inflate : Body → Except String Body
  | .deflated b => .ok b
  | _ => .error "zlib error: incorrect header check"

/-- `JSON.parse(body.toString())`: recovers the serialized value from a
plain serialization and throws a `SyntaxError` on compressed bytes, whose
leading bytes are never valid JSON. -/
def jsonParse : Body → Except String Json
  | .raw j => .ok j
  | _ => .error "SyntaxError: Unexpected token in JSON"

/-- The upstream (OpenAI) response as seen by the `proxyRes` handler:
status code, optional `Content-Encoding` header, body bytes. -/
structure UpstreamResponse where
  statusCode : Nat
  contentEncoding : Option String
  body : Body

/-- Modelled from the spec: `handleDownstreamErrors` (in `./common`, not
among the given sources) takes over the response — and the stage below
does not run — unless the upstream status indicates success. -/
def statusIndicatesSuccess (status : Nat) : Bool :=
  200 ≤ status && status < 300

/-- What the client observes from the handler. -/
inductive Outcome where
  | errorHandled
  | crashed (err : String)
  | sent (contentEncoding : Option String) (body : Body)

/-- The handler's client-visible outcome paired with whether the usage
accounting side effect (`incrementKeyUsage`, which increments the selected
key's `promptCount`; modelled from the spec since `./common` is not among
the given sources) ran. -/
structure HandlerResult where
  usageIncremented : Bool
  outcome : Outcome

/-- The Kobold response object
`{ results: [{ text: content }], model: response.model }`, serialized with
`JSON.stringify`, which omits object fields whose value is `undefined`. -/
def mkKoboldResponse (content model : Option Json) : Json :=
  .obj
    ([("results",
        .arr [.obj (match content with
          | some c => [("text", c)]
          | none => [])])] ++
      (match model with
        | some m => [("model", m)]
        | none => []))

/-- The decompression step of the `end` listener: gzip and deflate bodies
are decoded, and a body with any other `Content-Encoding` value (or none)
is passed through untouched. -/
def decodeBody (r : UpstreamResponse) : Except String Body :=
  match r.contentEncoding with
  | some "gzip" => gunzip r.body
  | some "deflate" => inflate r.body
  | _ => .ok r.body

/-- `JSON.parse(body.toString())` followed by the property chain
`response.choices[0].message.content` and `response.model`: yields the
(possibly `undefined`) content and model values, or the thrown error. -/
def extractParts (body : Body) : Except String (Option Json × Option Json) := do
  let response ← jsonParse body
  let choices ← jsGetField (some response) "choices"
  let choice0 ← jsIndex choices 0
  let message ← jsGetField choice0 "message"
  let content ← jsGetField message "content"
  let model ← jsGetField (some response) "model"
  pure (content, model)

/-- The body of the `end` listener: decompress per `Content-Encoding`,
extract the completion text and model, build the Kobold payload and
re-encode it.  A thrown error (zlib, JSON parse, or a `TypeError` from the
property chain) rejects the `async` listener, which nothing catches. -/
def processBody (r : UpstreamResponse) : Except String Outcome := do
  let body ← decodeBody r
  let parts ← extractParts body
  let koboldResponse := mkKoboldResponse parts.1 parts.2
  match r.contentEncoding with
  | some "gzip" =>
    pure (.sent (some "gzip") (.gzipped (.raw koboldResponse)))
  | some "deflate" =>
    pure (.sent (some "deflate") (.deflated (.raw koboldResponse)))
  | _ =>
    -- no explicit re-encoding; the Content-Encoding header (if any) was
    -- already copied from the upstream response by copyHttpHeaders
    -- (modelled from the spec: "with a matching header")
    pure (.sent r.contentEncoding (.raw koboldResponse))

/-- `handleProxiedResponse`: if `handleDownstreamErrors` throws, the error
handler has taken over; otherwise `incrementKeyUsage(req)` runs first,
headers are copied, and the buffered body is processed by the `end`
listener, whose uncaught exceptions surface as `crashed`. -/
def handleProxiedResponse (r : UpstreamResponse) : HandlerResult :=
  if !statusIndicatesSuccess r.statusCode then ⟨false, .errorHandled⟩
  else
    match processBody r with
    | .ok o => ⟨true, o⟩
    | .error e => ⟨true, .crashed e⟩

/-! ## Object-identity (heap) refinement of the pool

`KeyPool.get` returns the live pool record in its trial branch
(`return trialKeys[0]`) but a spread copy in its LRU branch
(`return { ...oldestKey }`), and `KeyPool.list` returns frozen copies.
To state what aliasing the caller gets, the pool is refined with explicit
JS object identities: a heap of cells indexed by allocation order, with
`this.keys` a list of references into it. -/

/-- A heap cell: either a live pool `Key` record or a frozen public
listing entry produced by `KeyPool.list`. -/
inductive Cell where
  | keyObj (k : Key)
  | frozenPub (p : PublicKey)
deriving DecidableEq, Repr

/-- The pool with explicit object identities: `store` is the heap
(`store[i]` is the object with identity `i`) and `poolIds` is `this.keys`
as a list of references. -/
structure PoolState where
  store : List Cell
  poolIds : List Nat
deriving DecidableEq, Repr

/-- Dereference an object identity. -/
def deref (s : PoolState) (i : Nat) : Option Cell :=
  s.store.get? i

/-- A property write through a reference: `Object.freeze` makes writes to
frozen listing entries silent no-ops (non-strict mode), while live pool
records are updated in place. -/
def storeWrite (s : PoolState) (i : Nat) (c : Cell) : PoolState :=
  match s.store.get? i with
  | some (.frozenPub _) => s
  | _ => ⟨s.store.set i c, s.poolIds⟩

/-- Allocate a fresh object. -/
def alloc (s : PoolState) (c : Cell) : Nat × PoolState :=
  (s.store.length, ⟨s.store ++ [c], s.poolIds⟩)

/-- `this.keys` as (identity, record) pairs, skipping dangling or
non-record references (which a well-formed pool does not have). -/
def poolEntries (s : PoolState) : List (Nat × Key) :=
  s.poolIds.filterMap fun i =>
    match s.store.get? i with
    | some (.keyObj k) => some (i, k)
    | _ => none

/-- A well-formed pool state: every pool reference points at a live `Key`
record in the heap. -/
def ValidPool (s : PoolState) : Prop :=
  ∀ i ∈ s.poolIds, ∃ k, s.store.get? i = some (.keyObj k)

/-- The availability filter of `KeyPool.get` over the identity-carrying
pool. -/
def availableEntries (s : PoolState) (model : String) : List (Nat × Key) :=
  (poolEntries s).filter fun p => availableFilter (jsStartsWith model "gpt-4") p.2

/-- `KeyPool.get` on the identity-carrying pool: same selection logic as
`KeyPool.get`, but the result is the reference handed to the caller
together with the branch taken.  The trial branch stamps `lastUsed` on the
pool record and returns that very reference; the LRU branch stamps the
pool record and returns a freshly allocated spread copy. -/
def KeyPool.getRef (s : PoolState) (model : String) (now : Nat) :
    Except String (Nat × Bool × PoolState) :=
  match availableEntries s model with
  | [] => .error (if jsStartsWith model "gpt-4" then noGpt4KeysMsg else noKeysMsg)
  | a :: as =>
    match (a :: as).filter (fun p => p.2.isTrial) with
    | t :: _ =>
      let s1 := storeWrite s t.1 (.keyObj { t.2 with lastUsed := now })
      .ok (t.1, true, s1)
    | [] =>
      match sortByLastUsed (a :: as) with
      | o :: _ =>
        let s1 := storeWrite s o.1 (.keyObj { o.2 with lastUsed := now })
        let a1 := alloc s1 (.keyObj { o.2 with lastUsed := now })
        .ok (a1.1, false, a1.2)
      | [] => .error noKeysMsg  -- unreachable: sorting preserves nonemptiness

/-- `KeyPool.list()` on the identity-carrying pool: allocates one frozen
public copy per pool record and returns the fresh references, leaving
`this.keys` untouched. -/
def KeyPool.listRef (s : PoolState) : List Nat × PoolState :=
  let pubs := (poolEntries s).map fun p => Cell.frozenPub (toPublic p.2)
  ((List.range pubs.length).map (s.store.length + ·),
    ⟨s.store ++ pubs, s.poolIds⟩)

/-! ## Specification-side selection helpers and supporting lemmas -/

/-- The first element attaining the minimal `lastUsed` — the
least-recently-used key with ties broken by stable input order. -/
def firstOldest : List (Nat × Key) → Option (Nat × Key)
  | [] => none
  | x :: xs =>
    match firstOldest xs with
    | none => some x
    | some y => if x.2.lastUsed ≤ y.2.lastUsed then some x else some y

theorem insertByLastUsed_ne_nil (x : Nat × Key) (l : List (Nat × Key)) :
    insertByLastUsed x l ≠ [] := by
  cases l with
  | nil => simp [insertByLastUsed]
  | cons y ys =>
    simp only [insertByLastUsed]
    split <;> simp

theorem sortByLastUsed_eq_nil_iff (l : List (Nat × Key)) :
    sortByLastUsed l = [] ↔ l = [] := by
  cases l with
  | nil => simp [sortByLastUsed]
  | cons x xs =>
    simp only [sortByLastUsed]
    constructor
    · intro h
      exact absurd h (insertByLastUsed_ne_nil x (sortByLastUsed xs))
    · intro h
      cases h

/-- The head of the stable sort is the first element attaining the
minimal `lastUsed`. -/
theorem sortByLastUsed_head? (l : List (Nat × Key)) :
    (sortByLastUsed l).head? = firstOldest l := by
  induction l with
  | nil => rfl
  | cons x xs ih =>
    cases hs : sortByLastUsed xs with
    | nil =>
      have hxs : xs = [] := (sortByLastUsed_eq_nil_iff xs).mp hs
      subst hxs
      rfl
    | cons h t =>
      have hfo : firstOldest xs = some h := by
        rw [← ih, hs]; rfl
      simp only [sortByLastUsed, hs, firstOldest, hfo, insertByLastUsed]
      split <;> rfl

theorem firstOldest_mem {l : List (Nat × Key)} {o : Nat × Key}
    (h : firstOldest l = some o) : o ∈ l := by
  induction l with
  | nil => cases h
  | cons x xs ih =>
    simp only [firstOldest] at h
    split at h
    · cases h
      exact List.mem_cons_self _ _
    · rename_i y hfo
      split at h
      · cases h
        exact List.mem_cons_self _ _
      · cases h
        exact List.mem_cons_of_mem _ (ih hfo)

/-- The head of a filtered list is the first element satisfying the
predicate. -/
theorem head?_filter_eq_find? {α : Type} (p : α → Bool) (l : List α) :
    (l.filter p).head? = l.find? p := by
  induction l with
  | nil => rfl
  | cons x xs ih =>
    cases hx : p x with
    | true => simp [List.filter_cons, List.find?_cons, hx]
    | false => simp [List.filter_cons, List.find?_cons, hx, ih]

theorem mem_withIdx {p : Nat × Key} :
    ∀ {n : Nat} {ks : List Key}, p ∈ withIdx n ks →
      n ≤ p.1 ∧ ks.get? (p.1 - n) = some p.2 := by
  intro n ks
  induction ks generalizing n with
  | nil => intro h; cases h
  | cons k ks ih =>
    intro h
    simp only [withIdx, List.mem_cons] at h
    cases h with
    | inl h =>
      subst h
      exact ⟨Nat.le_refl _, by simp⟩
    | inr h =>
      obtain ⟨hle, hget⟩ := ih (n := n + 1) h
      refine ⟨Nat.le_of_succ_le hle, ?_⟩
      have h1 : p.1 - n = (p.1 - (n + 1)) + 1 := by omega
      rw [h1]
      simpa using hget

/-- Members of the availability filter are pool records at their own
position. -/
theorem mem_availableOf {keys : List Key} {model : String} {p : Nat × Key}
    (h : p ∈ availableOf keys model) :
    keys.get? p.1 = some p.2 ∧
      availableFilter (jsStartsWith model "gpt-4") p.2 = true := by
  obtain ⟨hmem, hfilt⟩ := List.mem_filter.mp h
  have := mem_withIdx hmem
  exact ⟨by simpa using this.2, hfilt⟩

theorem stampLastUsed_get?_self {keys : List Key} {i : Nat} {k : Key}
    (h : keys.get? i = some k) (now : Nat) :
    (stampLastUsed keys i now).get? i = some { k with lastUsed := now } := by
  induction keys generalizing i with
  | nil => cases h
  | cons x xs ih =>
    cases i with
    | zero => cases h; rfl
    | succ j => exact ih (by simpa using h)

theorem stampLastUsed_get?_ne (keys : List Key) (i now : Nat) {j : Nat}
    (h : j ≠ i) : (stampLastUsed keys i now).get? j = keys.get? j := by
  induction keys generalizing i j with
  | nil => cases i <;> rfl
  | cons x xs ih =>
    cases i with
    | zero =>
      cases j with
      | zero => exact absurd rfl h
      | succ j' => rfl
    | succ i' =>
      cases j with
      | zero => rfl
      | succ j' => exact @ih i' j' (by omega)

theorem availableFilter_isDisabled {n : Bool} {k : Key}
    (h : availableFilter n k = true) : k.isDisabled = false := by
  simp only [availableFilter, Bool.and_eq_true, Bool.not_eq_true'] at h
  exact h.1

theorem withIdx_mem_of_get? {keys : List Key} {i : Nat} {k : Key}
    (h : keys.get? i = some k) : ∀ n, (n + i, k) ∈ withIdx n keys := by
  induction keys generalizing i with
  | nil => cases h
  | cons x xs ih =>
    intro n
    cases i with
    | zero => cases h; exact List.mem_cons_self _ _
    | succ j =>
      have hmem := ih (i := j) (by simpa using h) (n + 1)
      have harith : n + (j + 1) = (n + 1) + j := by omega
      rw [harith]
      exact List.mem_cons_of_mem _ hmem

/-- Complete case analysis of the success path of `KeyPool.get`: the
selected entry is the first trial key when one is available, and the first
least-recently-used key otherwise; the stamped record is the selected one
and the branch flag equals trial availability. -/
theorem get_cases (keys : List Key) (model : String) (now : Nat)
    (h : availableOf keys model ≠ []) :
    ∃ p : Nat × Key, p ∈ availableOf keys model ∧
      KeyPool.get keys model now =
        .ok (⟨{ p.2 with lastUsed := now }, p.1,
              (availableOf keys model).any fun q => q.2.isTrial⟩,
          stampLastUsed keys p.1 now) ∧
      (∀ t, (availableOf keys model).find? (fun q => q.2.isTrial) = some t →
        p = t) ∧
      ((availableOf keys model).find? (fun q => q.2.isTrial) = none →
        firstOldest (availableOf keys model) = some p) := by
  obtain ⟨a, as, hav⟩ := List.exists_cons_of_ne_nil h
  have hfind : (availableOf keys model).find? (fun q => q.2.isTrial) =
      ((a :: as).filter fun q => q.2.isTrial).head? := by
    rw [hav, head?_filter_eq_find?]
  cases htf : (a :: as).filter (fun q => q.2.isTrial) with
  | cons t ts =>
    have htmem : t ∈ (a :: as).filter fun q => q.2.isTrial := by
      rw [htf]
      exact List.mem_cons_self t ts
    have hany : ((availableOf keys model).any fun q => q.2.isTrial) = true := by
      rw [List.any_eq_true]
      exact ⟨t, by rw [hav]; exact (List.mem_filter.mp htmem).1,
        (List.mem_filter.mp htmem).2⟩
    refine ⟨t, ?_, ?_, ?_, ?_⟩
    · rw [hav]
      exact (List.mem_filter.mp htmem).1
    · rw [hany]
      simp only [KeyPool.get, hav, htf]
    · intro t2 ht2
      rw [hfind, htf] at ht2
      simpa using ht2
    · intro hnone
      rw [hfind, htf] at hnone
      cases hnone
  | nil =>
    have hsortne : sortByLastUsed (a :: as) ≠ [] := by
      rw [Ne, sortByLastUsed_eq_nil_iff]
      simp
    obtain ⟨o, os, hos⟩ := List.exists_cons_of_ne_nil hsortne
    have hfo : firstOldest (availableOf keys model) = some o := by
      rw [hav, ← sortByLastUsed_head?, hos]
      rfl
    have hany : ((availableOf keys model).any fun q => q.2.isTrial) = false := by
      cases hb : (availableOf keys model).any fun q => q.2.isTrial
      · rfl
      · obtain ⟨x, hx, hpx⟩ := List.any_eq_true.mp hb
        rw [hav] at hx
        have : x ∈ (a :: as).filter fun q => q.2.isTrial :=
          List.mem_filter.mpr ⟨hx, hpx⟩
        rw [htf] at this
        cases this
    refine ⟨o, ?_, ?_, ?_, fun _ => hfo⟩
    · exact hav ▸ firstOldest_mem (hav ▸ hfo)
    · rw [hany]
      simp only [KeyPool.get, hav, htf, hos]
    · intro t2 ht2
      rw [hfind, htf] at ht2
      cases ht2

theorem mem_poolEntries {s : PoolState} {p : Nat × Key}
    (h : p ∈ poolEntries s) :
    p.1 ∈ s.poolIds ∧ s.store.get? p.1 = some (.keyObj p.2) := by
  unfold poolEntries at h
  obtain ⟨i, hi, hf⟩ := List.mem_filterMap.mp h
  split at hf
  · rename_i k hk
    cases hf
    exact ⟨hi, hk⟩
  · cases hf

theorem storeWrite_store_length (s : PoolState) (i : Nat) (c : Cell) :
    (storeWrite s i c).store.length = s.store.length := by
  unfold storeWrite
  split
  · rfl
  · simp

theorem storeWrite_poolIds (s : PoolState) (i : Nat) (c : Cell) :
    (storeWrite s i c).poolIds = s.poolIds := by
  unfold storeWrite
  split <;> rfl

theorem deref_storeWrite_ne (s : PoolState) {i j : Nat} (c : Cell)
    (h : i ≠ j) : deref (storeWrite s i c) j = deref s j := by
  unfold storeWrite deref
  split
  · rfl
  · exact List.get?_set_ne c s.store h

theorem valid_lt_length {s : PoolState} (hv : ValidPool s) {i : Nat}
    (hi : i ∈ s.poolIds) : i < s.store.length := by
  obtain ⟨k, hk⟩ := hv i hi
  exact (List.get?_eq_some.mp hk).1

theorem filterMap_get?_of_forall_isSome {α β : Type} {f : α → Option β} :
    ∀ {l : List α}, (∀ a ∈ l, (f a).isSome) → ∀ n,
      (l.filterMap f).get? n = (l.get? n).bind f := by
  intro l
  induction l with
  | nil => intro _ n; cases n <;> rfl
  | cons a l ih =>
    intro h n
    obtain ⟨b, hb⟩ :=
      Option.isSome_iff_exists.mp (h a (List.mem_cons_self a l))
    rw [List.filterMap_cons, hb]
    cases n with
    | zero => simp [hb]
    | succ m =>
      simpa using ih (fun x hx => h x (List.mem_cons_of_mem _ hx)) m

theorem filterMap_length_of_forall_isSome {α β : Type} {f : α → Option β} :
    ∀ {l : List α}, (∀ a ∈ l, (f a).isSome) →
      (l.filterMap f).length = l.length := by
  intro l
  induction l with
  | nil => intro _; rfl
  | cons a l ih =>
    intro h
    obtain ⟨b, hb⟩ :=
      Option.isSome_iff_exists.mp (h a (List.mem_cons_self a l))
    rw [List.filterMap_cons, hb]
    simpa using ih fun x hx => h x (List.mem_cons_of_mem _ hx)

/-- The `filterMap` defining `poolEntries` never drops an element of a
well-formed pool. -/
theorem poolEntries_isSome {s : PoolState} (hv : ValidPool s) :
    ∀ i ∈ s.poolIds,
      (match s.store.get? i with
        | some (.keyObj k) => some (i, k)
        | _ => (none : Option (Nat × Key))).isSome := by
  intro i hi
  obtain ⟨k, hk⟩ := hv i hi
  rw [hk]
  rfl

theorem except_bind_ok {ε α β : Type} (a : α) (f : α → Except ε β) :
    (Except.ok a : Except ε α) >>= f = f a := rfl

theorem except_bind_error {ε α β : Type} (e : ε) (f : α → Except ε β) :
    (Except.error e : Except ε α) >>= f = .error e := rfl

/-! ## Claim C1 — `calculateRemainingQuota` at zero total `hardLimit` -/

/-- C1: the claim that `remainingQuotaFraction` "returns exactly 0
whenever the filtered set is empty or the total `hardLimit` is zero" and
"never returns NaN" fails on the code: for a non-empty key set whose
`hardLimit` sum is zero — e.g. a single freshly constructed key, which has
`usage = 0` and `hardLimit = 0` until the health checker fills limits in —
the guard `if (keys.length === 0) return 0` does not fire and the code
computes `1 - 0 / 0`, which is `NaN`. -/
theorem calculateRemainingQuota_nan_on_zero_total_hardLimit :
    calculateRemainingQuota [newKey (fun s => s) "sk-test"] false = .nan ∧
    JsNum.nan ≠ JsNum.num 0 ∧
    (newKey (fun s => s) "sk-test").hardLimit = 0 := by
  refine ⟨?_, by decide, rfl⟩
  simp [calculateRemainingQuota, newKey, jsDiv, jsOneSub]

/-! ## Claim C4 — pool initialization -/

/-- C4 counterexample: for the configured key string `" , "`, every entry
is blank after trimming, yet the constructor does not fail with a
configuration error — it builds two records (for one distinct trimmed
entry), and both records carry the same hash, since the hash is a pure
function of the (equal) secrets. -/
theorem keyPoolInit_counterexample :
    ((jsSplit " , " ',').map jsTrim).all (· = "") = true ∧
    keyPoolInit (fun s => s) (some " , ") =
      .ok [newKey (fun s => s) "", newKey (fun s => s) ""] ∧
    ((jsSplit " , " ',').map jsTrim).dedup.length = 1 ∧
    (newKey (fun s => s) "").hash = (newKey (fun s => s) "").hash := by
  refine ⟨by decide, by decide, by decide, rfl⟩

/-- C4 (amended): initialization fails iff the configured key string is
missing or blank after trimming (an all-blank string that still contains a
comma, such as `" , "`, is accepted); otherwise it produces one Key Record
per comma-separated entry — trimmed but not deduplicated — each fully
enabled with zero usage, zero limits, zero counters and `hash` a pure
function of the secret.  Duplicate entries yield multiple records sharing
a hash, so `hash` need not uniquely identify a record. -/
theorem keyPoolInit_characterization (hashFn : String → String) (s : String) :
    keyPoolInit hashFn none =
      .error "OPENAI_KEY environment variable is not set" ∧
    (jsTrim s = "" →
      keyPoolInit hashFn (some s) =
        .error "OPENAI_KEY environment variable is not set") ∧
    (jsTrim s ≠ "" →
      ∃ l, keyPoolInit hashFn (some s) = .ok l ∧
        l.length = (jsSplit s ',').length ∧
        (∀ i, l.get? i =
          (((jsSplit s ',').map jsTrim).get? i).map (newKey hashFn)) ∧
        ∀ k ∈ l, k.isDisabled = false ∧ k.isTrial = false ∧
          k.isGpt4 = false ∧ k.usage = 0 ∧ k.softLimit = 0 ∧
          k.hardLimit = 0 ∧ k.systemHardLimit = 0 ∧ k.promptCount = 0 ∧
          k.lastUsed = 0 ∧ k.lastChecked = 0 ∧ k.hash = hashFn k.key) := by
  refine ⟨rfl, ?_, ?_⟩
  · intro h
    simp [keyPoolInit, h]
  · intro h
    refine ⟨((jsSplit s ',').map jsTrim).map (newKey hashFn),
      by simp [keyPoolInit, h], by simp, ?_, ?_⟩
    · intro i
      rw [List.get?_map]
    · intro k hk
      obtain ⟨t, -, rfl⟩ := List.mem_map.mp hk
      exact ⟨rfl, rfl, rfl, rfl, rfl, rfl, rfl, rfl, rfl, rfl, rfl⟩

/-- C4 witness: the amended characterization applied to the concrete key
string `"sk-a,sk-b"`. -/
theorem keyPoolInit_characterization_witness :
    ∃ l, keyPoolInit (fun s => s) (some "sk-a,sk-b") = .ok l ∧
      l.length = 2 := by
  obtain ⟨l, h1, h2, -, -⟩ :=
    (keyPoolInit_characterization (fun s => s) "sk-a,sk-b").2.2 (by decide)
  exact ⟨l, h1, by rw [h2]; decide⟩

/-! ## Claim C3 — `KeyPool.update` -/

theorem update_not_found {keys : List Key} {h : String}
    (hall : ∀ k ∈ keys, k.hash ≠ h) (u : KeyUpdate) (now : Nat) :
    KeyPool.update keys h u now = .error assignTypeErrorMsg := by
  induction keys with
  | nil => rfl
  | cons k ks ih =>
    have hk : ¬k.hash = h := hall k (List.mem_cons_self k ks)
    simp only [KeyPool.update, if_neg hk]
    rw [ih fun k2 hk2 => hall k2 (List.mem_cons_of_mem _ hk2)]
    rfl

theorem update_found (pre : List Key) {k : Key} (post : List Key)
    {h : String} (hpre : ∀ k2 ∈ pre, k2.hash ≠ h) (hk : k.hash = h)
    (u : KeyUpdate) (now : Nat) :
    KeyPool.update (pre ++ k :: post) h u now =
      .ok (pre ++ applyUpdate k u now :: post) := by
  induction pre with
  | nil => simp [KeyPool.update, hk]
  | cons p pre ih =>
    have hp : ¬p.hash = h := hpre p (List.mem_cons_self p pre)
    simp only [List.cons_append, KeyPool.update, if_neg hp, List.append_eq]
    rw [ih fun k2 hk2 => hpre k2 (List.mem_cons_of_mem _ hk2)]
    rfl

/-- C3 (amended): if `hash` matches a record, `update` merges exactly the
supplied fields into the first matching record, stamps its `lastChecked`,
and leaves the non-updatable fields (`key`, `hash`, `isDisabled`,
`lastUsed`, `promptCount`) and every other record untouched; if `hash`
matches no record, it neither no-ops nor raises `UnknownKey` — it throws
the `Object.assign` `TypeError`. -/
theorem update_characterization (keys : List Key) (h : String)
    (u : KeyUpdate) (now : Nat) :
    ((∀ k ∈ keys, k.hash ≠ h) →
      KeyPool.update keys h u now = .error assignTypeErrorMsg) ∧
    (∀ pre k post, keys = pre ++ k :: post →
      (∀ k2 ∈ pre, k2.hash ≠ h) → k.hash = h →
      KeyPool.update keys h u now =
        .ok (pre ++ applyUpdate k u now :: post) ∧
      (applyUpdate k u now).lastChecked = now ∧
      (applyUpdate k u now).key = k.key ∧
      (applyUpdate k u now).hash = k.hash ∧
      (applyUpdate k u now).isDisabled = k.isDisabled ∧
      (applyUpdate k u now).lastUsed = k.lastUsed ∧
      (applyUpdate k u now).promptCount = k.promptCount ∧
      (applyUpdate k u now).isTrial = u.isTrial.getD k.isTrial ∧
      (applyUpdate k u now).isGpt4 = u.isGpt4.getD k.isGpt4 ∧
      (applyUpdate k u now).softLimit = u.softLimit.getD k.softLimit ∧
      (applyUpdate k u now).hardLimit = u.hardLimit.getD k.hardLimit ∧
      (applyUpdate k u now).systemHardLimit =
        u.systemHardLimit.getD k.systemHardLimit ∧
      (applyUpdate k u now).usage = u.usage.getD k.usage) := by
  refine ⟨fun hall => update_not_found hall u now, ?_⟩
  intro pre k post hsplit hpre hk
  subst hsplit
  exact ⟨update_found pre post hpre hk u now,
    rfl, rfl, rfl, rfl, rfl, rfl, rfl, rfl, rfl, rfl, rfl, rfl⟩

/-- C3 counterexample: with a hash matching no record, `update` is not a
no-op and does not fail with `UnknownKey`: it throws the JS `TypeError`
that `Object.assign(undefined, ...)` raises. -/
theorem update_counterexample :
    KeyPool.update [newKey (fun s => s) "sk-a"] "deadbe" {} 0 =
      .error assignTypeErrorMsg ∧
    KeyPool.update [newKey (fun s => s) "sk-a"] "deadbe" {} 0 ≠
      .ok [newKey (fun s => s) "sk-a"] ∧
    assignTypeErrorMsg ≠ "UnknownKey" := by
  refine ⟨by decide, by decide, by decide⟩

/-- C3 witness: the amended characterization applied to a two-key pool
whose second record matches the hash. -/
theorem update_characterization_witness :
    KeyPool.update
        [newKey (fun s => s) "sk-a", newKey (fun s => s) "sk-b"] "sk-b"
        { usage := some 5 } 9 =
      .ok [newKey (fun s => s) "sk-a",
        applyUpdate (newKey (fun s => s) "sk-b") { usage := some 5 } 9] := by
  exact ((update_characterization
      [newKey (fun s => s) "sk-a", newKey (fun s => s) "sk-b"] "sk-b"
      { usage := some 5 } 9).2
    [newKey (fun s => s) "sk-a"] (newKey (fun s => s) "sk-b") [] rfl
    (by decide) rfl).1

/-! ## Claim C5 — selection policy of `KeyPool.get` -/

/-- C5: whenever some non-disabled key satisfies the capability
requirement, `get` succeeds; it returns the first available trial key if
one exists, and otherwise the available key with the oldest `lastUsed`
(ties broken by stable input order); in both cases the selected pool
record — and only it — has its `lastUsed` stamped with the current time,
and the returned value is the stamped record. -/
theorem get_selection_policy (keys : List Key) (model : String) (now : Nat)
    (h : availableOf keys model ≠ []) :
    ∃ sel keys2, KeyPool.get keys model now = .ok (sel, keys2) ∧
      (∀ t, (availableOf keys model).find? (fun q => q.2.isTrial) = some t →
        sel.returned = { t.2 with lastUsed := now } ∧ sel.index = t.1 ∧
        sel.viaTrial = true) ∧
      ((availableOf keys model).find? (fun q => q.2.isTrial) = none →
        ∃ o, firstOldest (availableOf keys model) = some o ∧
          sel.returned = { o.2 with lastUsed := now } ∧ sel.index = o.1 ∧
          sel.viaTrial = false) ∧
      keys2 = stampLastUsed keys sel.index now ∧
      keys2.get? sel.index = some sel.returned ∧
      (∀ j, j ≠ sel.index → keys2.get? j = keys.get? j) := by
  obtain ⟨p, hmem, hget, htr, hlru⟩ := get_cases keys model now h
  refine ⟨_, _, hget, ?_, ?_, rfl, ?_, ?_⟩
  · intro t ht
    rw [← htr t ht]
    refine ⟨rfl, rfl, ?_⟩
    rw [List.any_eq_true]
    refine ⟨t, List.mem_of_find?_eq_some ht, ?_⟩
    simpa using List.find?_some ht
  · intro hnone
    refine ⟨p, hlru hnone, rfl, rfl, ?_⟩
    cases hb : (availableOf keys model).any fun q => q.2.isTrial
    · rfl
    · obtain ⟨x, hx, hpx⟩ := List.any_eq_true.mp hb
      rw [List.find?_eq_none] at hnone
      exact absurd hpx (hnone x hx)
  · exact stampLastUsed_get?_self (mem_availableOf hmem).1 now
  · intro j hj
    exact stampLastUsed_get?_ne keys p.1 now hj

/-- C5 witness: a two-key pool with no trial keys; the policy theorem
applied at a concrete non-GPT-4 model and time. -/
theorem get_selection_policy_witness :
    ∃ sel keys2,
      KeyPool.get
          [{ newKey (fun s => s) "sk-a" with lastUsed := 9 },
           { newKey (fun s => s) "sk-b" with lastUsed := 3 }]
          "text-davinci-003" 7 = .ok (sel, keys2) ∧
      keys2.get? sel.index = some sel.returned := by
  obtain ⟨sel, keys2, h1, -, -, -, h5, -⟩ :=
    get_selection_policy
      [{ newKey (fun s => s) "sk-a" with lastUsed := 9 },
       { newKey (fun s => s) "sk-b" with lastUsed := 3 }]
      "text-davinci-003" 7 (by decide)
  exact ⟨sel, keys2, h1, h5⟩

/-! ## Claim C6 — selection exhaustion and disabled keys -/

/-- C6: when no non-disabled key satisfies the capability requirement,
`get` fails with the `NoKeyAvailable` message specific to the requirement
(the GPT-4 message differs from the generic one); a successful selection
never returns a disabled key; and if some key is enabled at all, a
request that does not require GPT-4 still succeeds. -/
theorem get_exhaustion (keys : List Key) (model : String) (now : Nat) :
    (availableOf keys model = [] →
      KeyPool.get keys model now =
        .error
          (if jsStartsWith model "gpt-4" then noGpt4KeysMsg else noKeysMsg)) ∧
    noGpt4KeysMsg ≠ noKeysMsg ∧
    (∀ sel keys2, KeyPool.get keys model now = .ok (sel, keys2) →
      sel.returned.isDisabled = false) ∧
    ((∃ k ∈ keys, k.isDisabled = false) → jsStartsWith model "gpt-4" = false →
      ∃ r, KeyPool.get keys model now = .ok r) := by
  refine ⟨?_, by decide, ?_, ?_⟩
  · intro hemp
    simp only [KeyPool.get, hemp]
  · intro sel keys2 hok
    by_cases hava : availableOf keys model = []
    · rw [(by simp only [KeyPool.get, hava] :
        KeyPool.get keys model now =
          .error (if jsStartsWith model "gpt-4" then noGpt4KeysMsg
            else noKeysMsg))] at hok
      cases hok
    · obtain ⟨p, hmem, hget, -, -⟩ := get_cases keys model now hava
      rw [hget] at hok
      obtain ⟨rfl, -⟩ : (⟨{ p.2 with lastUsed := now }, p.1,
          (availableOf keys model).any fun q => q.2.isTrial⟩ : Selected) =
            sel ∧ stampLastUsed keys p.1 now = keys2 := by
        cases hok
        exact ⟨rfl, rfl⟩
      exact availableFilter_isDisabled (mem_availableOf hmem).2
  · rintro ⟨k, hk, hkd⟩ hm
    obtain ⟨i, hi⟩ := List.get?_of_mem hk
    have hmem : (i, k) ∈ withIdx 0 keys := by
      have := withIdx_mem_of_get? hi 0
      simpa using this
    have hfilt : availableFilter (jsStartsWith model "gpt-4") k = true := by
      simp [availableFilter, hkd, hm]
    have hain : (i, k) ∈ availableOf keys model :=
      List.mem_filter.mpr ⟨hmem, hfilt⟩
    obtain ⟨p, -, hget, -, -⟩ :=
      get_cases keys model now (List.ne_nil_of_mem hain)
    exact ⟨_, hget⟩

/-- C6 witness: a pool whose only key is disabled fails with the generic
message for a non-GPT-4 model, and the two exhaustion messages differ. -/
theorem get_exhaustion_witness :
    KeyPool.get [{ newKey (fun s => s) "sk-a" with isDisabled := true }]
        "text-davinci-003" 3 = .error noKeysMsg ∧
    noGpt4KeysMsg ≠ noKeysMsg := by
  have h := get_exhaustion
    [{ newKey (fun s => s) "sk-a" with isDisabled := true }]
    "text-davinci-003" 3
  refine ⟨?_, h.2.1⟩
  have h1 := h.1 (by decide)
  rw [h1]
  decide

/-! ## Claim C10 — aliasing of the value returned by `get` -/

/-- C10: the trial branch of `get` returns the live pool record
(`return trialKeys[0]`), so the reference it hands out is one of the
pool's own references; the LRU branch returns a spread copy
(`return { ...oldestKey }`), a freshly allocated object outside the pool,
so writes through the returned reference never change a pool record and
writes to pool records never show through the returned reference. -/
theorem getRef_aliasing (s : PoolState) (model : String) (now : Nat)
    (hv : ValidPool s) (ref : Nat) (via : Bool) (s2 : PoolState)
    (hok : KeyPool.getRef s model now = .ok (ref, via, s2)) :
    via = ((availableEntries s model).any fun q => q.2.isTrial) ∧
    (via = true → ref ∈ s.poolIds) ∧
    (via = false →
      ref ∉ s.poolIds ∧
      (∀ c j, j ∈ s.poolIds →
        deref (storeWrite s2 ref c) j = deref s2 j) ∧
      (∀ c j, j ∈ s.poolIds →
        deref (storeWrite s2 j c) ref = deref s2 ref)) := by
  cases hava : availableEntries s model with
  | nil =>
    rw [(by simp only [KeyPool.getRef, hava] :
      KeyPool.getRef s model now =
        .error (if jsStartsWith model "gpt-4" then noGpt4KeysMsg
          else noKeysMsg))] at hok
    cases hok
  | cons a as =>
    cases htf : (a :: as).filter (fun q => q.2.isTrial) with
    | cons t ts =>
      have htmem : t ∈ (a :: as).filter fun q => q.2.isTrial := by
        rw [htf]
        exact List.mem_cons_self t ts
      have hget : KeyPool.getRef s model now =
          .ok (t.1, true,
            storeWrite s t.1 (.keyObj { t.2 with lastUsed := now })) := by
        simp only [KeyPool.getRef, hava, htf]
      rw [hget] at hok
      obtain ⟨rfl, rfl, rfl⟩ :
          t.1 = ref ∧ true = via ∧
            storeWrite s t.1 (.keyObj { t.2 with lastUsed := now }) = s2 := by
        cases hok
        exact ⟨rfl, rfl, rfl⟩
      obtain ⟨hmem2, hpt⟩ := List.mem_filter.mp htmem
      refine ⟨?_, ?_, ?_⟩
      · have hany : ((a :: as).any fun q => q.2.isTrial) = true :=
          List.any_eq_true.mpr ⟨t, hmem2, by simpa using hpt⟩
        exact hany.symm
      · intro _
        have hmem3 : t ∈ availableEntries s model := by
          rw [hava]
          exact hmem2
        exact (mem_poolEntries (List.mem_filter.mp hmem3).1).1
      · intro hcontra
        exact Bool.noConfusion hcontra
    | nil =>
      have hsortne : sortByLastUsed (a :: as) ≠ [] := by
        rw [Ne, sortByLastUsed_eq_nil_iff]
        simp
      obtain ⟨o, os, hos⟩ := List.exists_cons_of_ne_nil hsortne
      have hget : KeyPool.getRef s model now =
          .ok ((storeWrite s o.1
              (.keyObj { o.2 with lastUsed := now })).store.length, false,
            ⟨(storeWrite s o.1 (.keyObj { o.2 with lastUsed := now })).store
                ++ [.keyObj { o.2 with lastUsed := now }],
              (storeWrite s o.1
                (.keyObj { o.2 with lastUsed := now })).poolIds⟩) := by
        simp only [KeyPool.getRef, hava, htf, hos, alloc]
      rw [hget] at hok
      obtain ⟨rfl, rfl, rfl⟩ :
          (storeWrite s o.1
            (.keyObj { o.2 with lastUsed := now })).store.length = ref ∧
          false = via ∧
          (⟨(storeWrite s o.1 (.keyObj { o.2 with lastUsed := now })).store
              ++ [.keyObj { o.2 with lastUsed := now }],
            (storeWrite s o.1
              (.keyObj { o.2 with lastUsed := now })).poolIds⟩ :
                PoolState) = s2 := by
        cases hok
        exact ⟨rfl, rfl, rfl⟩
      have hreflen :
          (storeWrite s o.1
            (.keyObj { o.2 with lastUsed := now })).store.length =
            s.store.length :=
        storeWrite_store_length s o.1 _
      have hnotmem :
          (storeWrite s o.1
            (.keyObj { o.2 with lastUsed := now })).store.length ∉
            s.poolIds := by
        rw [hreflen]
        intro hmem
        exact absurd (valid_lt_length hv hmem) (by omega)
      refine ⟨?_, ?_, ?_⟩
      · have hany : ((a :: as).any fun q => q.2.isTrial) = false := by
          cases hb : (a :: as).any fun q => q.2.isTrial
          · rfl
          · obtain ⟨x, hx, hpx⟩ := List.any_eq_true.mp hb
            have hxin : x ∈ (a :: as).filter fun q => q.2.isTrial :=
              List.mem_filter.mpr ⟨hx, hpx⟩
            rw [htf] at hxin
            cases hxin
        exact hany.symm
      · intro hcontra
        exact Bool.noConfusion hcontra
      · intro _
        refine ⟨hnotmem, ?_, ?_⟩
        · intro c j hj
          exact deref_storeWrite_ne _ c fun hc => hnotmem (hc ▸ hj)
        · intro c j hj
          exact deref_storeWrite_ne _ c fun hc => hnotmem (hc ▸ hj)

/-- C10 witness: a two-key heap pool with no trial keys; `getRef` takes
the LRU branch and the returned reference `2` lies outside the pool's
reference list `[0, 1]`. -/
theorem getRef_aliasing_witness :
    KeyPool.getRef
        ⟨[.keyObj { newKey (fun s => s) "sk-a" with lastUsed := 9 },
          .keyObj { newKey (fun s => s) "sk-b" with lastUsed := 3 }],
         [0, 1]⟩ "text-davinci-003" 7 =
      .ok (2, false,
        ⟨[.keyObj { newKey (fun s => s) "sk-a" with lastUsed := 9 },
          .keyObj { newKey (fun s => s) "sk-b" with lastUsed := 7 },
          .keyObj { newKey (fun s => s) "sk-b" with lastUsed := 7 }],
         [0, 1]⟩) ∧
    (2 : Nat) ∉ ([0, 1] : List Nat) := by
  have hok : KeyPool.getRef
      ⟨[.keyObj { newKey (fun s => s) "sk-a" with lastUsed := 9 },
        .keyObj { newKey (fun s => s) "sk-b" with lastUsed := 3 }],
       [0, 1]⟩ "text-davinci-003" 7 =
      .ok (2, false,
        ⟨[.keyObj { newKey (fun s => s) "sk-a" with lastUsed := 9 },
          .keyObj { newKey (fun s => s) "sk-b" with lastUsed := 7 },
          .keyObj { newKey (fun s => s) "sk-b" with lastUsed := 7 }],
         [0, 1]⟩) := by decide
  have hv : ValidPool
      ⟨[.keyObj { newKey (fun s => s) "sk-a" with lastUsed := 9 },
        .keyObj { newKey (fun s => s) "sk-b" with lastUsed := 3 }],
       [0, 1]⟩ := by
    intro i hi
    rcases List.mem_cons.mp hi with rfl | hi2
    · exact ⟨_, rfl⟩
    · rcases List.mem_cons.mp hi2 with rfl | hi3
      · exact ⟨_, rfl⟩
      · cases hi3
  exact ⟨hok, ((getRef_aliasing _ "text-davinci-003" 7 hv 2 false _ hok).2.2
    rfl).1⟩

/-! ## Claim C9 — `KeyPool.list` secrecy and detachment -/

theorem poolEntries_length {s : PoolState} (hv : ValidPool s) :
    (poolEntries s).length = s.poolIds.length :=
  filterMap_length_of_forall_isSome (poolEntries_isSome hv)

theorem poolEntries_get? {s : PoolState} (hv : ValidPool s) (n : Nat) :
    (poolEntries s).get? n = (s.poolIds.get? n).bind fun i =>
      match s.store.get? i with
      | some (.keyObj k) => some (i, k)
      | _ => none :=
  filterMap_get?_of_forall_isSome (poolEntries_isSome hv) n

/-- C9: `list` returns one frozen public entry per pool record — same
order, all fields mirrored, the secret replaced by `undefined` — and the
entries are freshly allocated objects outside the pool, so no write
through a returned entry can change any field of any pool record (and
`Object.freeze` additionally makes such writes no-ops). -/
theorem listRef_secrecy (s : PoolState) (hv : ValidPool s) :
    (KeyPool.listRef s).1.length = s.poolIds.length ∧
    (KeyPool.listRef s).2.poolIds = s.poolIds ∧
    (∀ j ∈ s.poolIds, deref (KeyPool.listRef s).2 j = deref s j) ∧
    (∀ r ∈ (KeyPool.listRef s).1,
      r ∉ s.poolIds ∧
      ∃ p : PublicKey,
        deref (KeyPool.listRef s).2 r = some (.frozenPub p) ∧
        p.key = none) ∧
    (∀ i j k, s.poolIds.get? i = some j →
      s.store.get? j = some (.keyObj k) →
      ∃ r, (KeyPool.listRef s).1.get? i = some r ∧
        deref (KeyPool.listRef s).2 r =
          some (.frozenPub (toPublic k))) ∧
    (∀ r ∈ (KeyPool.listRef s).1, ∀ c j, j ∈ s.poolIds →
      deref (storeWrite (KeyPool.listRef s).2 r c) j =
        deref (KeyPool.listRef s).2 j) := by
  have hplen :
      ((poolEntries s).map fun p => Cell.frozenPub (toPublic p.2)).length =
        (poolEntries s).length := List.length_map _ _
  have hderef : ∀ r ∈ (KeyPool.listRef s).1,
      r ∉ s.poolIds ∧
      ∃ e : Nat × Key,
        deref (KeyPool.listRef s).2 r =
          some (.frozenPub (toPublic e.2)) := by
    intro r hr
    obtain ⟨i, hi, rfl⟩ := List.mem_map.mp hr
    have hilt : i < (poolEntries s).length := by
      have := List.mem_range.mp hi
      omega
    constructor
    · intro hmem
      have := valid_lt_length hv hmem
      omega
    · obtain ⟨e, he⟩ : ∃ e, (poolEntries s).get? i = some e := by
        rw [List.get?_eq_get hilt]
        exact ⟨_, rfl⟩
      refine ⟨e, ?_⟩
      show (s.store ++
        (poolEntries s).map fun p => Cell.frozenPub (toPublic p.2)).get?
          (s.store.length + i) = _
      rw [List.get?_append_right (by omega)]
      have : s.store.length + i - s.store.length = i := by omega
      rw [this, List.get?_map, he]
      rfl
  refine ⟨?_, rfl, ?_, ?_, ?_, ?_⟩
  · show ((List.range _).map _).length = _
    rw [List.length_map, List.length_range, hplen, poolEntries_length hv]
  · intro j hj
    show (s.store ++ _).get? j = s.store.get? j
    exact List.get?_append (valid_lt_length hv hj)
  · intro r hr
    obtain ⟨hnot, e, he⟩ := hderef r hr
    exact ⟨hnot, toPublic e.2, he, rfl⟩
  · intro i j k hij hjk
    have hent : (poolEntries s).get? i = some (j, k) := by
      rw [poolEntries_get? hv, hij]
      show (match s.store.get? j with
        | some (.keyObj k) => some (j, k)
        | _ => none) = _
      rw [hjk]
    have hilt : i < (poolEntries s).length := (List.get?_eq_some.mp hent).1
    refine ⟨s.store.length + i, ?_, ?_⟩
    · show ((List.range _).map _).get? i = _
      rw [List.get?_map, List.get?_range (by rw [hplen]; omega)]
      rfl
    · show (s.store ++
        (poolEntries s).map fun p => Cell.frozenPub (toPublic p.2)).get?
          (s.store.length + i) = _
      rw [List.get?_append_right (by omega)]
      have : s.store.length + i - s.store.length = i := by omega
      rw [this, List.get?_map, hent]
      rfl
  · intro r hr c j hj
    obtain ⟨-, e, he⟩ := hderef r hr
    have hfrozen : storeWrite (KeyPool.listRef s).2 r c =
        (KeyPool.listRef s).2 := by
      unfold storeWrite
      rw [show (KeyPool.listRef s).2.store.get? r =
        some (.frozenPub (toPublic e.2)) from he]
    rw [hfrozen]

/-- C9 witness: the secrecy theorem applied to a concrete two-record
heap pool. -/
theorem listRef_secrecy_witness :
    (KeyPool.listRef
      ⟨[.keyObj (newKey (fun s => s) "sk-a"),
        .keyObj (newKey (fun s => s) "sk-b")], [0, 1]⟩).1.length = 2 ∧
    ∀ r ∈ (KeyPool.listRef
      ⟨[.keyObj (newKey (fun s => s) "sk-a"),
        .keyObj (newKey (fun s => s) "sk-b")], [0, 1]⟩).1,
      r ∉ ([0, 1] : List Nat) := by
  have hv : ValidPool
      ⟨[.keyObj (newKey (fun s => s) "sk-a"),
        .keyObj (newKey (fun s => s) "sk-b")], [0, 1]⟩ := by
    intro i hi
    rcases List.mem_cons.mp hi with rfl | hi2
    · exact ⟨_, rfl⟩
    · rcases List.mem_cons.mp hi2 with rfl | hi3
      · exact ⟨_, rfl⟩
      · cases hi3
  have h := listRef_secrecy
    ⟨[.keyObj (newKey (fun s => s) "sk-a"),
      .keyObj (newKey (fun s => s) "sk-b")], [0, 1]⟩ hv
  exact ⟨h.1, fun r hr => (h.2.2.2.1 r hr).1⟩

/-! ## Claim C2 — malformed upstream completion bodies -/

/-- C2 (amended): for a success response whose decoded body parses but
lacks the expected completion field (missing or empty `choices`), the
`end` listener throws an uncaught `TypeError` — no
`MalformedUpstreamResponse` error is raised and no internal-error response
is produced — and the usage-accounting side effect has already run, since
`incrementKeyUsage(req)` is invoked before the body is parsed. -/
theorem malformed_response_crashes_after_accounting (r : UpstreamResponse)
    (j : Json)
    (hs : statusIndicatesSuccess r.statusCode = true)
    (hdec : decodeBody r = .ok (.raw j))
    (hch : jsGetField (some j) "choices" = .ok none ∨
      jsGetField (some j) "choices" = .ok (some (.arr []))) :
    (handleProxiedResponse r).usageIncremented = true ∧
    (handleProxiedResponse r).outcome =
      .crashed "TypeError: Cannot read properties of undefined" := by
  have h1 : extractParts (.raw j) =
      (jsGetField (some j) "choices" >>= fun choices =>
        jsIndex choices 0 >>= fun choice0 =>
        jsGetField choice0 "message" >>= fun message =>
        jsGetField message "content" >>= fun content =>
        jsGetField (some j) "model" >>= fun model =>
        pure (content, model)) := rfl
  have hex : extractParts (.raw j) =
      .error "TypeError: Cannot read properties of undefined" := by
    cases hch with
    | inl h =>
      rw [h1, h]
      rfl
    | inr h =>
      rw [h1, h]
      rfl
  have hp : processBody r =
      .error "TypeError: Cannot read properties of undefined" := by
    simp only [processBody, hdec, except_bind_ok, hex, except_bind_error]
  unfold handleProxiedResponse
  rw [hs, hp]
  exact ⟨rfl, rfl⟩

/-- C2 counterexample: a success response with an empty `choices` array.
Contrary to the claim, usage accounting is performed (not skipped), and
the failure is an uncaught `TypeError`, not a `MalformedUpstreamResponse`
reported to the client. -/
theorem malformed_response_counterexample :
    (handleProxiedResponse
      ⟨200, none,
        .raw (.obj [("choices", .arr []),
          ("model", .str "gpt-x")])⟩).usageIncremented = true ∧
    (handleProxiedResponse
      ⟨200, none,
        .raw (.obj [("choices", .arr []),
          ("model", .str "gpt-x")])⟩).outcome =
      .crashed "TypeError: Cannot read properties of undefined" := by
  exact ⟨rfl, rfl⟩

/-- C2 witness: the amended theorem applied to a deflate-compressed
success response with no `choices` field at all. -/
theorem malformed_response_witness :
    (handleProxiedResponse
      ⟨200, some "deflate",
        .deflated (.raw (.obj [("model", .str "gpt-x")]))⟩).usageIncremented
        = true ∧
    (handleProxiedResponse
      ⟨200, some "deflate",
        .deflated (.raw (.obj [("model", .str "gpt-x")]))⟩).outcome =
      .crashed "TypeError: Cannot read properties of undefined" :=
  malformed_response_crashes_after_accounting
    ⟨200, some "deflate", .deflated (.raw (.obj [("model", .str "gpt-x")]))⟩
    (.obj [("model", .str "gpt-x")]) rfl rfl (Or.inl rfl)

/-! ## Claim C7 — Content-Encoding handling -/

/-- C7 (amended): the response stage decodes only gzip and deflate; a body
with any other `Content-Encoding` value is NOT rejected with an
unsupported-encoding error — it is passed through undecoded and processed
as if it were identity-encoded: if its (undecoded) bytes parse and carry
the completion shape the converted payload is sent (with the upstream's
encoding header echoed), and otherwise the listener crashes with the
uncaught parse/extraction error, while usage accounting runs either way. -/
theorem unknown_encoding_passthrough (r : UpstreamResponse) (e : String)
    (hs : statusIndicatesSuccess r.statusCode = true)
    (he : r.contentEncoding = some e)
    (hg : e ≠ "gzip") (hd : e ≠ "deflate") :
    decodeBody r = .ok r.body ∧
    (handleProxiedResponse r).usageIncremented = true ∧
    (∀ err, extractParts r.body = .error err →
      (handleProxiedResponse r).outcome = .crashed err) ∧
    (∀ parts, extractParts r.body = .ok parts →
      (handleProxiedResponse r).outcome =
        .sent (some e) (.raw (mkKoboldResponse parts.1 parts.2))) := by
  have hdec : decodeBody r = .ok r.body := by
    unfold decodeBody
    rw [he]
    split <;> simp_all
  refine ⟨hdec, ?_, ?_, ?_⟩
  · unfold handleProxiedResponse
    rw [hs]
    cases hpb : processBody r <;> rfl
  · intro err hex
    have hp : processBody r = .error err := by
      simp only [processBody, hdec, except_bind_ok, hex, except_bind_error]
    unfold handleProxiedResponse
    rw [hs, hp]
    rfl
  · intro parts hex
    have hp : processBody r =
        .ok (.sent (some e) (.raw (mkKoboldResponse parts.1 parts.2))) := by
      simp only [processBody, hdec, except_bind_ok, hex, he]
      split <;> first
      | rfl
      | simp_all
    unfold handleProxiedResponse
    rw [hs, hp]
    rfl

/-- C7 counterexample: a success response labelled with the unsupported
`Content-Encoding: br` whose bytes happen to parse is processed and
answered normally — no unsupported-encoding error is surfaced, contrary
to the claim. -/
theorem unknown_encoding_counterexample :
    (handleProxiedResponse
      ⟨200, some "br",
        .raw (.obj [("choices",
            .arr [.obj [("message", .obj [("content", .str "hi")])]]),
          ("model", .str "gpt-x")])⟩).outcome =
      .sent (some "br")
        (.raw (.obj [("results", .arr [.obj [("text", .str "hi")]]),
          ("model", .str "gpt-x")])) := by
  rfl

/-- C7 witness: the amended theorem applied to a gzip-compressed body
mislabelled `Content-Encoding: br`: the body is passed through undecoded,
`JSON.parse` throws on the compressed bytes, and the listener crashes
with the uncaught `SyntaxError` while usage is still accounted. -/
theorem unknown_encoding_witness :
    (handleProxiedResponse
      ⟨200, some "br",
        .gzipped (.raw (.obj [("model", .str "gpt-x")]))⟩).usageIncremented
        = true ∧
    (handleProxiedResponse
      ⟨200, some "br",
        .gzipped (.raw (.obj [("model", .str "gpt-x")]))⟩).outcome =
      .crashed "SyntaxError: Unexpected token in JSON" := by
  have h := unknown_encoding_passthrough
    ⟨200, some "br", .gzipped (.raw (.obj [("model", .str "gpt-x")]))⟩
    "br" rfl rfl (by decide) (by decide)
  exact ⟨h.2.1, h.2.2.1 "SyntaxError: Unexpected token in JSON" rfl⟩

/-! ## Claim C8 — round-trip response shape -/

/-- The well-formed provider success payload
`{choices:[{message:{content: t}}], model: m}`. -/
def providerResponseJson (t m : String) : Json :=
  .obj [("choices", .arr [.obj [("message", .obj [("content", .str t)])]]),
    ("model", .str m)]

/-- The legacy payload `{results:[{text: t}], model: m}`. -/
def koboldResponseJson (t m : String) : Json :=
  .obj [("results", .arr [.obj [("text", .str t)]]), ("model", .str m)]

/-- Compression applied by the upstream for a given `Content-Encoding`
header (identity when the header is absent or `identity`). -/
def encodeFor : Option String → Body → Body
  | some "gzip", b => .gzipped b
  | some "deflate", b => .deflated b
  | _, b => b

/-- The decoding the client applies to the response body according to its
`Content-Encoding` header. -/
def clientDecode : Option String → Body → Except String Body
  | some "gzip", b => gunzip b
  | some "deflate", b => inflate b
  | _, b => .ok b

/-- C8: for every well-formed provider success response delivered with
gzip, deflate or identity encoding, the client receives a body that,
decoded with the same encoding, is exactly the serialized
`{results:[{text: t}], model: m}` payload, under the same
`Content-Encoding` header as the upstream response; the prompt is also
counted. -/
theorem response_round_trip (t m : String) (status : Nat)
    (enc : Option String)
    (hs : statusIndicatesSuccess status = true)
    (henc : enc = some "gzip" ∨ enc = some "deflate" ∨ enc = none ∨
      enc = some "identity") :
    (handleProxiedResponse
      ⟨status, enc,
        encodeFor enc (.raw (providerResponseJson t m))⟩).usageIncremented
        = true ∧
    ∃ b,
      (handleProxiedResponse
        ⟨status, enc,
          encodeFor enc (.raw (providerResponseJson t m))⟩).outcome =
        .sent enc b ∧
      clientDecode enc b = .ok (.raw (koboldResponseJson t m)) := by
  rcases henc with rfl | rfl | rfl | rfl <;>
    · unfold handleProxiedResponse
      rw [hs]
      exact ⟨rfl, _, rfl, rfl⟩

/-- C8 witness: the round-trip theorem at the spec's concrete example —
`{choices:[{message:{content:"hello"}}], model:"gpt-x"}` gzip-compressed,
received as gzip-encoded `{"results":[{"text":"hello"}],"model":"gpt-x"}`
with matching `Content-Encoding`. -/
theorem response_round_trip_witness :
    ∃ b,
      (handleProxiedResponse
        ⟨200, some "gzip",
          encodeFor (some "gzip")
            (.raw (providerResponseJson "hello" "gpt-x"))⟩).outcome =
        .sent (some "gzip") b ∧
      clientDecode (some "gzip") b =
        .ok (.raw (koboldResponseJson "hello" "gpt-x")) :=
  (response_round_trip "hello" "gpt-x" 200 (some "gzip") rfl (Or.inl rfl)).2

end OaiProxy
